import Mathlib

/-!
# resolvercache-go: a caching DNS resolution engine

A shallow embedding of `resolver/resolver.go` (the query client) and
`cache/cache.go` (the resolution cache), followed by theorems about them.

Conventions of the embedding:

* Go `int` is 64 bits wide and is carried as `Int`; the only arithmetic done on
  it, `time.Duration(n) * time.Second`, wraps to 64 bits (`seconds`).
* `uint32` values are carried as `Nat` with an explicit `% 4294967296`
  (the round-robin cursor, the converted pool length) or as
  `Fin 4294967296` (the TTL field of a parsed record).
* A Go call either returns its `(value, error)` pair or panics (`Go`).
  Errors are identified with their message.
* The network, the clock and the helpers of the standard library and of
  `miekg/dns` are an environment (`Env`, `World`): the n-th `dns.Exchange`
  of a run answers what `Env.Exchange n` says and takes the time it says.
* `World.exchanges` and `World.calls` are logs: the first of the exchanges
  sent to the network, the second of the `Resolve` invocations, with the
  nameserver each one selected.
-/

namespace resolvercache

/-- Result of a Go call: the returned `(value, error)` pair, or a run-time panic. -/
inductive Go (α : Type) where
  | ret (val : α) (err : Option String)
  | panic (msg : String)
deriving DecidableEq, Repr

/-- The outside world as seen by the program: the clock read by `time.Now()`
(nanoseconds), the exchanges sent so far as (question name, nameserver), and
the `Resolve` invocations made so far as (host, selected nameserver). -/
structure World where
  now : Int
  exchanges : List (String × String)
  calls : List (String × Option String)
deriving DecidableEq, Repr

/-- Advance the clock by `d` nanoseconds. -/
def World.after (w : World) (d : Nat) : World :=
  { w with now := w.now + (d : Int) }

/-- Text form of a `net.IP`, as produced by its `String` method. That method
returns `"<nil>"`, a dotted decimal, an RFC 5952 form or `"?"` followed by hex
digits: never the empty string. -/
structure IPText where
  text : String
  nonempty : text ≠ ""

/-- An answer record (`dns.RR`): an address record (`*dns.A`) with the TTL of
its header and its address, or a record of any other type. -/
inductive RR where
  | A (ttl : Fin 4294967296) (a : IPText)
  | other (rrtype : Nat) (ttl : Fin 4294967296)

/-- The fields of `dns.Msg` read by the client. -/
structure Msg where
  Rcode : Int
  Answer : List RR

/-- What one call of `dns.Exchange` gives back, and how long it took (ns). -/
structure Exchanged where
  answer : Option Msg
  err : Option String
  elapsed : Nat

/-- The collaborators of the program: `net.ParseIP(s) != nil`, `dns.Fqdn`,
the table `dns.RcodeToString` (the empty string where it has no entry), and
the transport `dns.Exchange`, whose answer may depend on how many exchanges
were made before, on the question name and on the nameserver. -/
structure Env where
  parseIP : String → Bool
  Fqdn : String → String
  RcodeToString : Int → String
  Exchange : Nat → String → String → Exchanged

/-- Value of `dns.RcodeSuccess`. -/
def RcodeSuccess : Int := 0

/-- Wrap an integer to the range of `int64`. -/
def wrapInt64 (x : Int) : Int :=
  (x + 9223372036854775808) % 18446744073709551616 - 9223372036854775808

/-- The duration `time.Duration(n) * time.Second`, in nanoseconds. -/
def seconds (n : Int) : Int :=
  wrapInt64 (n * 1000000000)

/-- The duration `5 * time.Minute`, in nanoseconds. -/
def fiveMinutes : Int := 300000000000

/-! ## resolver/resolver.go -/

namespace resolver

/-- A DNS resolver client. -/
structure Client where
  resolvers : List String
  maxRetries : Int
  currentIndex : Nat
deriving DecidableEq, Repr

/-- The results from a DNS resolution. -/
structure Result where
  IPs : List String
  TTL : Int
deriving DecidableEq, Repr

/-- Function `New` creates a new dns client: the client and the (always nil) error. -/
def New (baseResolvers : List String) (maxRetries : Int) : Client × Option String :=
  ({ resolvers := [] ++ baseResolvers, maxRetries := maxRetries, currentIndex := 0 }, none)

/-- Body of the loop over `answer.Answer` for one record. -/
def scanRecord (result : Result) (record : RR) : Result :=
  match record with
  | RR.A ttl a =>
    if a.text ≠ "" then { IPs := result.IPs ++ [a.text], TTL := (ttl.val : Int) } else result
  | RR.other _ _ => result

/-- The loop `for _, record := range answer.Answer`. -/
def scanAnswer (answer : List RR) (result : Result) : Result :=
  answer.foldl scanRecord result

/-- The retry loop of `Resolve` with `n` iterations left, `err` holding the
error of the previous exchange. `result` is still `Result{}` whenever the loop
is entered or left without success. -/
def exchangeLoop (env : Env) (name resolver : String) :
    Nat → Option String → World → Go Result × World
  | 0, err, w => (Go.ret { IPs := [], TTL := 0 } err, w)
  | n + 1, _, w =>
    let x := env.Exchange w.exchanges.length name resolver
    let w1 : World :=
      { w with now := w.now + (x.elapsed : Int), exchanges := w.exchanges ++ [(name, resolver)] }
    match x.err with
    | some e => exchangeLoop env name resolver n (some e) w1
    | none =>
      match x.answer with
      | none => (Go.panic "invalid memory address or nil pointer dereference", w1)
      | some answer =>
        if answer.Rcode ≠ RcodeSuccess then
          (Go.ret { IPs := [], TTL := 0 } (some (env.RcodeToString answer.Rcode)), w1)
        else
          (Go.ret (scanAnswer answer.Answer { IPs := [], TTL := 0 }) none, w1)

/-- The round-robin selection of `Resolve`: the incremented cursor
`atomic.AddUint32(&c.currentIndex, 1)` and the nameserver
`c.resolvers[index%uint32(len(c.resolvers))]`, or the panic that the division
or the indexing raises. -/
def Client.roundRobin (c : Client) : Nat × Except String String :=
  let index := (c.currentIndex + 1) % 4294967296
  let len32 := c.resolvers.length % 4294967296
  if len32 = 0 then (index, Except.error "integer divide by zero")
  else
    match c.resolvers[index % len32]? with
    | none => (index, Except.error "index out of range")
    | some resolver => (index, Except.ok resolver)

/-- Method `Resolve` resolves a host and gets its ip records. -/
def Client.Resolve (env : Env) (c : Client) (w : World) (host : String) :
    Go Result × Client × World :=
  let name := env.Fqdn host
  let c1 : Client := { c with currentIndex := c.roundRobin.1 }
  match c.roundRobin.2 with
  | Except.error msg => (Go.panic msg, c1, { w with calls := w.calls ++ [(host, none)] })
  | Except.ok resolver =>
    let w1 : World := { w with calls := w.calls ++ [(host, some resolver)] }
    let r := exchangeLoop env name resolver c.maxRetries.toNat none w1
    (r.1, c1, r.2)

/-- Sequential `Resolve` calls on one client, one per host of the list. -/
def Client.resolveAll (env : Env) : Client → World → List String → Client × World
  | c, w, [] => (c, w)
  | c, w, host :: rest =>
    let r := c.Resolve env w host
    Client.resolveAll env r.2.1 r.2.2 rest

end resolver

/-! ## The expirable LRU store used by the cache -/

namespace expirablelru

/-- One stored entry. -/
structure cacheItem where
  key : String
  value : List String
  expiresAt : Int
deriving DecidableEq, Repr

/-- Modelled from the spec: the store of `github.com/projectdiscovery/expirablelru`,
which is not part of this repository. Entries are keyed by the exact hostname
string, carry an address list and an expiration timestamp, and are kept from
most to least recently used; `maxKeys` is the capacity bound on their number
(as in the library, a bound that is not positive is no bound). -/
structure Cache where
  maxKeys : Int
  ttl : Int
  purgeEvery : Int
  items : List cacheItem
deriving DecidableEq, Repr

/-- Modelled from the spec: an empty store with the given capacity. -/
def NewExpirableLRU (maxKeys : Int) (ttl purgeEvery : Int) : Cache :=
  { maxKeys := maxKeys, ttl := ttl, purgeEvery := purgeEvery, items := [] }

/-- Modelled from the spec: `Get` is a hit when the entry is present and not
expired (the clock is not after its expiration); a hit marks the entry as most
recently used and refreshes no TTL, a miss changes nothing. -/
def Cache.Get (c : Cache) (now : Int) (key : String) : Option (List String) × Cache :=
  match c.items.find? (fun it => it.key == key) with
  | none => (none, c)
  | some it =>
    if now > it.expiresAt then (none, c)
    else (some it.value, { c with items := it :: c.items.eraseP (fun it => it.key == key) })

/-- Modelled from the spec: `AddWithTTL` stores the value under the key with
expiration `now + ttl`, replacing the prior entry for that key if any;
otherwise the new entry may push the store over its capacity, and then the
least recently used entry, a different key, is evicted. -/
def Cache.AddWithTTL (c : Cache) (now : Int) (key : String) (value : List String)
    (ttl : Int) : Cache :=
  let item : cacheItem := { key := key, value := value, expiresAt := now + ttl }
  match c.items.find? (fun it => it.key == key) with
  | some _ => { c with items := item :: c.items.eraseP (fun it => it.key == key) }
  | none =>
    let items := item :: c.items
    if c.maxKeys > 0 ∧ (items.length : Int) > c.maxKeys then { c with items := items.dropLast }
    else { c with items := items }

end expirablelru

/-! ## cache/cache.go -/

namespace cache

/-- Configuration options for the cache. -/
structure Options where
  BaseResolvers : List String
  CacheSize : Int
  ExpirationTime : Int
  MaxRetries : Int
deriving DecidableEq, Repr

/-- The list of resolvers known to be trusted. -/
def DefaultResolvers : List String :=
  ["1.1.1.1:53", "1.0.0.1:53", "8.8.8.8:53", "8.8.4.4:53"]

/-- The default configuration options for the DNS cache. -/
def DefaultOptions : Options :=
  { BaseResolvers := DefaultResolvers, CacheSize := 10000, ExpirationTime := 5 * 60,
    MaxRetries := 5 }

/-- A structure for caching DNS lookups. -/
structure Cache where
  dnsClient : resolver.Client
  cache : expirablelru.Cache
  defaultExpirationTime : Int
deriving DecidableEq, Repr

/-- Function `New` creates a new caching dns resolver: the cache (nil on
failure) and the error. -/
def New (options : Options) : Option Cache × Option String :=
  match resolver.New options.BaseResolvers options.MaxRetries with
  | (_, some err) => (none, some err)
  | (dnsClient, none) =>
    let lru := expirablelru.NewExpirableLRU options.CacheSize (seconds options.ExpirationTime)
      fiveMinutes
    (some { dnsClient := dnsClient, cache := lru, defaultExpirationTime := options.ExpirationTime },
      none)

/-- Method `Lookup` gets records for a hostname from the cache, resolving the
host when they are not there. -/
def Cache.Lookup (env : Env) (c : Cache) (w : World) (hostname : String) :
    Go (List String) × Cache × World :=
  if env.parseIP hostname then (Go.ret [hostname] none, c, w)
  else
    match c.cache.Get w.now hostname with
    | (some value, lru) => (Go.ret value none, { c with cache := lru }, w)
    | (none, lru) =>
      match c.dnsClient.Resolve env w hostname with
      | (Go.panic msg, dns, w1) => (Go.panic msg, { c with dnsClient := dns, cache := lru }, w1)
      | (Go.ret _ (some err), dns, w1) =>
        (Go.ret [] (some err), { c with dnsClient := dns, cache := lru }, w1)
      | (Go.ret results none, dns, w1) =>
        let ttl := if results.TTL = 0 then c.defaultExpirationTime else results.TTL
        (Go.ret results.IPs none,
          { c with dnsClient := dns,
                   cache := lru.AddWithTTL w1.now hostname results.IPs (seconds ttl) }, w1)

/-- Method `LookupWithoutCache` gets records for a hostname by resolving it. -/
def Cache.LookupWithoutCache (env : Env) (c : Cache) (w : World) (hostname : String) :
    Go (List String) × Cache × World :=
  if env.parseIP hostname then (Go.ret [hostname] none, c, w)
  else
    match c.dnsClient.Resolve env w hostname with
    | (Go.panic msg, dns, w1) => (Go.panic msg, { c with dnsClient := dns }, w1)
    | (Go.ret _ (some err), dns, w1) => (Go.ret [] (some err), { c with dnsClient := dns }, w1)
    | (Go.ret results none, dns, w1) => (Go.ret results.IPs none, { c with dnsClient := dns }, w1)

end cache

/-- The address records of an answer section, in answer order, each as the
TTL of its header and the text of its address; records of other types are
left out. -/
def addressRecords (answer : List RR) : List (Fin 4294967296 × String) :=
  answer.filterMap (fun record =>
    match record with
    | RR.A ttl a => some (ttl, a.text)
    | RR.other _ _ => none)

/-- The TTL of the last address record of an answer section, 0 when there is none. -/
def lastAddressTTL (answer : List RR) : Int :=
  match (addressRecords answer).getLast? with
  | none => 0
  | some p => (p.1.val : Int)

/-- The pool entry at position `index mod uint32(len(pool))`, if the division
and the indexing go through: what `Resolve` selects for the incremented cursor
`index`. -/
def pick (pool : List String) (index : Nat) : Option String :=
  if pool.length % 4294967296 = 0 then none
  else pool[index % (pool.length % 4294967296)]?

/-- The nameservers selected by the `Resolve` calls that the world has logged
after its first `start` ones, in call order. -/
def selectedSince (w : World) (start : Nat) : List (Option String) :=
  (w.calls.drop start).map Prod.snd

/-! ## Sample environments

Scripted collaborators, in the manner of a test stub, on which the theorems
below are instantiated. -/

/-- A response with a CNAME record and two address records. -/
def sampleAnswer : Msg :=
  { Rcode := 0,
    Answer := [RR.other 5 60, RR.A 300 ⟨"93.184.216.34", (by decide)⟩,
      RR.A 120 ⟨"93.184.216.35", (by decide)⟩] }

/-- A response whose only address record has TTL 0. -/
def zeroTTLAnswer : Msg :=
  { Rcode := 0, Answer := [RR.A 0 ⟨"93.184.216.34", (by decide)⟩] }

/-- A name-error response. -/
def nxdomainAnswer : Msg :=
  { Rcode := 3, Answer := [] }

/-- Helpers shared by the sample environments: two literals parse as IP
addresses, names get a trailing dot, two status codes have a name. -/
def sampleEnv (exchange : Nat → String → String → Exchanged) : Env where
  parseIP := fun s => s == "192.0.2.7" || s == "2001:db8::1"
  Fqdn := fun s => s ++ "."
  RcodeToString := fun r => if r = 3 then "NXDOMAIN" else if r = 2 then "SERVFAIL" else ""
  Exchange := exchange

/-- A transport that answers every exchange with `sampleAnswer` after 7 ns. -/
def okEnv : Env :=
  sampleEnv (fun _ _ _ => ⟨some sampleAnswer, none, 7⟩)

/-- A transport that answers every exchange with `zeroTTLAnswer`. -/
def zeroTTLEnv : Env :=
  sampleEnv (fun _ _ _ => ⟨some zeroTTLAnswer, none, 7⟩)

/-- A transport on which every exchange times out, the n-th with its own message. -/
def failEnv : Env :=
  sampleEnv (fun n _ _ => ⟨none, some ("i/o timeout #" ++ toString n), 5⟩)

/-- A transport that times out twice and then answers `sampleAnswer`. -/
def flakyEnv : Env :=
  sampleEnv (fun n _ _ =>
    if n < 2 then ⟨none, some "i/o timeout", 5⟩ else ⟨some sampleAnswer, none, 7⟩)

/-- A transport that times out once and then answers `nxdomainAnswer`. -/
def nxdomainEnv : Env :=
  sampleEnv (fun n _ _ =>
    if n < 1 then ⟨none, some "i/o timeout", 5⟩ else ⟨some nxdomainAnswer, none, 7⟩)

/-- A world in which nothing has happened yet, the clock reading 1000 ns. -/
def sampleWorld : World :=
  { now := 1000, exchanges := [], calls := [] }

/-- The client `resolver.New(DefaultResolvers, 5)`. -/
def sampleClient : resolver.Client :=
  (resolver.New cache.DefaultResolvers 5).1

/-- A client whose pool has 4294967296 entries. -/
def hugePoolClient : resolver.Client :=
  { resolvers := List.replicate 4294967296 "1.1.1.1:53", maxRetries := 5, currentIndex := 0 }

/-- The client `resolver.New(DefaultResolvers, 0)`. -/
def noRetryClient : resolver.Client :=
  (resolver.New cache.DefaultResolvers 0).1

/-- A pool of three nameservers. -/
def threePool : List String :=
  ["1.1.1.1:53", "1.0.0.1:53", "8.8.8.8:53"]

/-- The host list of 4294967296 sequential calls for one host. -/
def manyHosts : List String :=
  List.replicate 4294967296 "example.com"

/-- The cache that `cache.New` builds from the given options. -/
def cacheOf (options : cache.Options) : cache.Cache :=
  { dnsClient := (resolver.New options.BaseResolvers options.MaxRetries).1,
    cache := expirablelru.NewExpirableLRU options.CacheSize (seconds options.ExpirationTime)
      fiveMinutes,
    defaultExpirationTime := options.ExpirationTime }

/-- The cache `cache.New(DefaultOptions)`. -/
def sampleCache : cache.Cache :=
  cacheOf cache.DefaultOptions

/-- A `Lookup` of `hostname`, then `d` nanoseconds after it has returned a
second `Lookup` of the same hostname: the result of the second one. -/
def lookupAgain (env : Env) (c : cache.Cache) (w : World) (hostname : String) (d : Nat) :
    Go (List String) × cache.Cache × World :=
  (c.Lookup env w hostname).2.1.Lookup env ((c.Lookup env w hostname).2.2.after d) hostname

/-- A `LookupWithoutCache` of `hostname`, then `d` nanoseconds after it has
returned a `Lookup` of the same hostname: the result of the `Lookup`. -/
def lookupAfterUncached (env : Env) (c : cache.Cache) (w : World) (hostname : String) (d : Nat) :
    Go (List String) × cache.Cache × World :=
  (c.LookupWithoutCache env w hostname).2.1.Lookup env
    ((c.LookupWithoutCache env w hostname).2.2.after d) hostname

/-! ## Facts about the store -/

theorem Get_miss_unchanged (c : expirablelru.Cache) (now : Int) (key : String)
    (h : (c.Get now key).1 = none) : (c.Get now key).2 = c := by
  unfold expirablelru.Cache.Get at h ⊢
  split
  · rfl
  · split
    · rfl
    · rename_i it hf hnow
      rw [hf] at h
      simp [hnow] at h

theorem Get_miss_later (c : expirablelru.Cache) (now later : Int) (key : String)
    (hle : now ≤ later) (h : (c.Get now key).1 = none) : (c.Get later key).1 = none := by
  unfold expirablelru.Cache.Get at h ⊢
  split
  · rfl
  · rename_i it hf
    rw [hf] at h
    by_cases hnow : now > it.expiresAt
    · have : later > it.expiresAt := by omega
      simp [this]
    · simp [hnow] at h

theorem find_AddWithTTL (c : expirablelru.Cache) (now : Int) (key : String)
    (value : List String) (ttl : Int) :
    (c.AddWithTTL now key value ttl).items.head? =
      some { key := key, value := value, expiresAt := now + ttl } := by
  unfold expirablelru.Cache.AddWithTTL
  split
  · rfl
  · dsimp only
    split
    · rename_i hcap
      cases hc : c.items with
      | nil =>
        rw [hc] at hcap
        simp at hcap
        omega
      | cons x xs => simp [List.dropLast]
    · rfl

theorem Get_of_head (c : expirablelru.Cache) (now : Int) (it : expirablelru.cacheItem)
    (h : c.items.head? = some it) :
    (c.Get now it.key).1 = if now > it.expiresAt then none else some it.value := by
  unfold expirablelru.Cache.Get
  cases hc : c.items with
  | nil => rw [hc] at h; simp at h
  | cons x xs =>
    rw [hc] at h
    simp at h
    subst h
    simp [List.find?]
    split <;> rfl

/-! ## Facts about the query client -/

theorem scanAnswer_TTL_range (answer : List RR) :
    ∀ r : resolver.Result, (0 ≤ r.TTL ∧ r.TTL < 4294967296) →
      0 ≤ (resolver.scanAnswer answer r).TTL ∧ (resolver.scanAnswer answer r).TTL < 4294967296 := by
  induction answer with
  | nil => intro r hr; simpa [resolver.scanAnswer] using hr
  | cons rr rest ih =>
    intro r hr
    have hstep : 0 ≤ (resolver.scanRecord r rr).TTL ∧ (resolver.scanRecord r rr).TTL < 4294967296 := by
      cases rr with
      | A ttl a =>
        have hlt := ttl.isLt
        by_cases ha : a.text ≠ ""
        · simp only [resolver.scanRecord, if_pos ha]
          omega
        · simp only [resolver.scanRecord, if_neg ha]
          exact hr
      | other t ttl => simpa [resolver.scanRecord] using hr
    have := ih (resolver.scanRecord r rr) hstep
    simpa [resolver.scanAnswer] using this

theorem exchangeLoop_calls (env : Env) (name ns : String) :
    ∀ (n : Nat) (err : Option String) (w : World),
      (resolver.exchangeLoop env name ns n err w).2.calls = w.calls := by
  intro n
  induction n with
  | zero => intro err w; rfl
  | succ n ih =>
    intro err w
    unfold resolver.exchangeLoop
    dsimp only
    split
    · rw [ih]
    · split
      · rfl
      · split <;> rfl

theorem exchangeLoop_TTL_range (env : Env) (name ns : String) :
    ∀ (n : Nat) (err : Option String) (w : World) (res : resolver.Result),
      (resolver.exchangeLoop env name ns n err w).1 = Go.ret res none →
      0 ≤ res.TTL ∧ res.TTL < 4294967296 := by
  intro n
  induction n with
  | zero =>
    intro err w res h
    simp only [resolver.exchangeLoop, Go.ret.injEq] at h
    rw [← h.1]
    decide
  | succ n ih =>
    intro err w res h
    unfold resolver.exchangeLoop at h
    dsimp only at h
    split at h
    · exact ih _ _ _ h
    · split at h
      · simp at h
      · split at h
        · simp at h
        · simp only [Go.ret.injEq, and_true] at h
          rw [← h]
          exact scanAnswer_TTL_range _ _ (by decide)

theorem Resolve_client (env : Env) (c : resolver.Client) (w : World) (host : String) :
    (c.Resolve env w host).2.1 =
      { c with currentIndex := (c.currentIndex + 1) % 4294967296 } := by
  have hidx : c.roundRobin.1 = (c.currentIndex + 1) % 4294967296 := by
    unfold resolver.Client.roundRobin
    dsimp only
    split
    · rfl
    · split <;> rfl
  unfold resolver.Client.Resolve
  dsimp only
  split <;> simp [hidx]

theorem Resolve_calls (env : Env) (c : resolver.Client) (w : World) (host : String) :
    ∃ ns, (c.Resolve env w host).2.2.calls = w.calls ++ [(host, ns)] := by
  unfold resolver.Client.Resolve
  dsimp only
  split
  · exact ⟨none, rfl⟩
  · rename_i ns _
    exact ⟨some ns, by rw [exchangeLoop_calls]⟩

theorem Resolve_TTL_range (env : Env) (c : resolver.Client) (w : World) (host : String)
    (res : resolver.Result) (h : (c.Resolve env w host).1 = Go.ret res none) :
    0 ≤ res.TTL ∧ res.TTL < 4294967296 := by
  unfold resolver.Client.Resolve at h
  dsimp only at h
  split at h
  · simp at h
  · exact exchangeLoop_TTL_range _ _ _ _ _ _ _ h

theorem seconds_of_range (n : Int) (h0 : -9223372036 ≤ n) (h1 : n ≤ 9223372036) :
    seconds n = n * 1000000000 := by
  unfold seconds wrapInt64
  omega

theorem exchangeLoop_now (env : Env) (name ns : String) :
    ∀ (n : Nat) (err : Option String) (w : World),
      w.now ≤ (resolver.exchangeLoop env name ns n err w).2.now := by
  intro n
  induction n with
  | zero => intro err w; exact le_refl _
  | succ n ih =>
    intro err w
    unfold resolver.exchangeLoop
    dsimp only
    split
    · refine le_trans ?_ (ih _ _)
      simp
    · split
      · simp
      · split <;> simp

theorem Resolve_now (env : Env) (c : resolver.Client) (w : World) (host : String) :
    w.now ≤ (c.Resolve env w host).2.2.now := by
  unfold resolver.Client.Resolve
  dsimp only
  split
  · exact le_refl _
  · exact exchangeLoop_now _ _ _ _ _ _

theorem scanAnswer_eq (answer : List RR) :
    ∀ r : resolver.Result,
      resolver.scanAnswer answer r =
        { IPs := r.IPs ++ (addressRecords answer).map Prod.snd,
          TTL := match (addressRecords answer).getLast? with
            | none => r.TTL
            | some p => (p.1.val : Int) } := by
  induction answer with
  | nil => intro r; simp [resolver.scanAnswer, addressRecords]
  | cons rr rest ih =>
    intro r
    have hstep : resolver.scanAnswer (rr :: rest) r =
        resolver.scanAnswer rest (resolver.scanRecord r rr) := rfl
    rw [hstep, ih]
    cases rr with
    | other t ttl => rfl
    | A ttl a =>
      have hrec : addressRecords (RR.A ttl a :: rest) = (ttl, a.text) :: addressRecords rest := rfl
      simp only [resolver.scanRecord, if_pos a.nonempty, hrec, List.map_cons,
        List.append_assoc, List.singleton_append]
      cases hrest : addressRecords rest with
      | nil => simp
      | cons p ps => simp [List.getLast?_eq_getLast _ (List.cons_ne_nil p ps)]

theorem roundRobin_ok (c : resolver.Client) (hpool : c.resolvers.length % 4294967296 ≠ 0) :
    ∃ ns, ns ∈ c.resolvers ∧ c.roundRobin.2 = Except.ok ns ∧
      c.resolvers[(c.currentIndex + 1) % 4294967296 % (c.resolvers.length % 4294967296)]? =
        some ns := by
  have hlt : (c.currentIndex + 1) % 4294967296 % (c.resolvers.length % 4294967296) <
      c.resolvers.length :=
    lt_of_lt_of_le (Nat.mod_lt _ (Nat.pos_of_ne_zero hpool)) (Nat.mod_le _ _)
  refine ⟨c.resolvers[(c.currentIndex + 1) % 4294967296 % (c.resolvers.length % 4294967296)],
    List.getElem_mem _, ?_, List.getElem?_eq_getElem hlt⟩
  unfold resolver.Client.roundRobin
  simp only [if_neg hpool, List.getElem?_eq_getElem hlt]

theorem exchangeLoop_skip (env : Env) (name ns : String) :
    ∀ (i n : Nat) (err : Option String) (w : World),
      (∀ j < i, (env.Exchange (w.exchanges.length + j) name ns).err ≠ none) →
      ∃ w1 : World, w1.exchanges = w.exchanges ++ List.replicate i (name, ns) ∧
        resolver.exchangeLoop env name ns (n + i) err w =
          resolver.exchangeLoop env name ns n
            (if i = 0 then err else (env.Exchange (w.exchanges.length + (i - 1)) name ns).err)
            w1 := by
  intro i
  induction i with
  | zero => intro n err w _; exact ⟨w, by simp, rfl⟩
  | succ i ih =>
    intro n err w hfail
    have h0 := hfail 0 (Nat.succ_pos i)
    rw [Nat.add_zero] at h0
    obtain ⟨e, he⟩ := Option.ne_none_iff_exists'.mp h0
    have hunf : resolver.exchangeLoop env name ns (n + (i + 1)) err w =
        resolver.exchangeLoop env name ns (n + i) (some e)
          { w with now := w.now + ((env.Exchange w.exchanges.length name ns).elapsed : Int),
                   exchanges := w.exchanges ++ [(name, ns)] } := by
      show resolver.exchangeLoop env name ns ((n + i) + 1) err w = _
      rw [resolver.exchangeLoop]
      simp only [he]
    obtain ⟨w1, hw1, hloop⟩ := ih n (some e)
      { w with now := w.now + ((env.Exchange w.exchanges.length name ns).elapsed : Int),
               exchanges := w.exchanges ++ [(name, ns)] }
      (by
        intro j hj
        have := hfail (j + 1) (Nat.succ_lt_succ hj)
        simpa [Nat.add_assoc, Nat.add_comm 1 j] using this)
    refine ⟨w1, ?_, ?_⟩
    · rw [hw1]
      simp [List.replicate_succ]
    · rw [hunf, hloop]
      congr 1
      by_cases hi : i = 0
      · subst hi
        simp [he]
      · simp only [if_neg hi, if_neg (Nat.succ_ne_zero i), List.length_append,
          List.length_singleton, Nat.add_sub_cancel]
        congr 2
        omega

theorem Resolve_of_selected (env : Env) (c : resolver.Client) (w : World) (host ns : String)
    (hsel : c.roundRobin.2 = Except.ok ns) :
    (c.Resolve env w host).1 =
        (resolver.exchangeLoop env (env.Fqdn host) ns c.maxRetries.toNat none
          { w with calls := w.calls ++ [(host, some ns)] }).1 ∧
      (c.Resolve env w host).2.2 =
        (resolver.exchangeLoop env (env.Fqdn host) ns c.maxRetries.toNat none
          { w with calls := w.calls ++ [(host, some ns)] }).2 := by
  unfold resolver.Client.Resolve
  rw [hsel]
  exact ⟨rfl, rfl⟩

theorem exchangeLoop_answered (env : Env) (name ns : String) (m : Nat) (err : Option String)
    (w : World) (answer : Msg)
    (herr : (env.Exchange w.exchanges.length name ns).err = none)
    (hans : (env.Exchange w.exchanges.length name ns).answer = some answer) :
    resolver.exchangeLoop env name ns (m + 1) err w =
      (if answer.Rcode ≠ RcodeSuccess then
          Go.ret { IPs := [], TTL := 0 } (some (env.RcodeToString answer.Rcode))
        else Go.ret (resolver.scanAnswer answer.Answer { IPs := [], TTL := 0 }) none,
        { w with now := w.now + ((env.Exchange w.exchanges.length name ns).elapsed : Int),
                 exchanges := w.exchanges ++ [(name, ns)] }) := by
  rw [resolver.exchangeLoop]
  simp only [herr, hans]
  split <;> rfl

theorem Resolve_answered (env : Env) (c : resolver.Client) (w : World) (host ns : String)
    (i : Nat) (answer : Msg)
    (hsel : c.roundRobin.2 = Except.ok ns)
    (hi : (i : Int) < c.maxRetries)
    (hprev : ∀ j < i, (env.Exchange (w.exchanges.length + j) (env.Fqdn host) ns).err ≠ none)
    (herr : (env.Exchange (w.exchanges.length + i) (env.Fqdn host) ns).err = none)
    (hans : (env.Exchange (w.exchanges.length + i) (env.Fqdn host) ns).answer = some answer) :
    (c.Resolve env w host).1 =
        (if answer.Rcode ≠ RcodeSuccess then
          Go.ret { IPs := [], TTL := 0 } (some (env.RcodeToString answer.Rcode))
        else Go.ret (resolver.scanAnswer answer.Answer { IPs := [], TTL := 0 }) none) ∧
      (c.Resolve env w host).2.2.exchanges =
        w.exchanges ++ List.replicate (i + 1) (env.Fqdn host, ns) := by
  obtain ⟨h1, h2⟩ := Resolve_of_selected env c w host ns hsel
  have hn : c.maxRetries.toNat = (c.maxRetries.toNat - i - 1 + 1) + i := by omega
  obtain ⟨w1, hw1, hloop⟩ := exchangeLoop_skip env (env.Fqdn host) ns i
    (c.maxRetries.toNat - i - 1 + 1) none { w with calls := w.calls ++ [(host, some ns)] } hprev
  have hlen : w1.exchanges.length = w.exchanges.length + i := by
    rw [hw1]
    simp
  rw [← hlen] at herr hans
  rw [h1, h2, hn, hloop, exchangeLoop_answered env _ ns _ _ w1 answer herr hans]
  refine ⟨rfl, ?_⟩
  simp only [hw1, List.replicate_succ', List.append_assoc]

theorem Resolve_panic_of_len32_zero (env : Env) (c : resolver.Client) (w : World)
    (host : String) (h : c.resolvers.length % 4294967296 = 0) :
    (c.Resolve env w host).1 = Go.panic "integer divide by zero" ∧
      (c.Resolve env w host).2.2.exchanges = w.exchanges := by
  have hsel : c.roundRobin.2 = Except.error "integer divide by zero" := by
    unfold resolver.Client.roundRobin
    simp only [h, if_true]
  unfold resolver.Client.Resolve
  rw [hsel]
  exact ⟨rfl, rfl⟩

theorem hugePoolClient_length : hugePoolClient.resolvers.length = 4294967296 :=
  List.length_replicate _ _

theorem Resolve_calls_pick (env : Env) (c : resolver.Client) (w : World) (host : String) :
    (c.Resolve env w host).2.2.calls =
      w.calls ++ [(host, pick c.resolvers ((c.currentIndex + 1) % 4294967296))] := by
  unfold resolver.Client.Resolve resolver.Client.roundRobin pick
  by_cases hz : c.resolvers.length % 4294967296 = 0
  · simp only [if_pos hz]
  · simp only [if_neg hz]
    cases hget : c.resolvers[(c.currentIndex + 1) % 4294967296 %
        (c.resolvers.length % 4294967296)]? with
    | none => rfl
    | some ns => exact exchangeLoop_calls _ _ _ _ _ _

theorem resolveAll_calls (env : Env) :
    ∀ (hosts : List String) (c : resolver.Client) (w : World),
      ∃ log : List (String × Option String),
        (c.resolveAll env w hosts).2.calls = w.calls ++ log ∧
        log.map Prod.fst = hosts ∧
        log.map Prod.snd =
          (List.range' 1 hosts.length).map
            (fun j => pick c.resolvers ((c.currentIndex + j) % 4294967296)) := by
  intro hosts
  induction hosts with
  | nil => intro c w; exact ⟨[], by simp [resolver.Client.resolveAll], rfl, rfl⟩
  | cons host rest ih =>
    intro c w
    obtain ⟨log, hlog, hfst, hsnd⟩ := ih (c.Resolve env w host).2.1 (c.Resolve env w host).2.2
    rw [Resolve_calls_pick, Resolve_client] at hlog
    rw [Resolve_client] at hsnd
    refine ⟨(host, pick c.resolvers ((c.currentIndex + 1) % 4294967296)) :: log, ?_, ?_, ?_⟩
    · show ((c.Resolve env w host).2.1.resolveAll env (c.Resolve env w host).2.2 rest).2.calls = _
      rw [Resolve_client, hlog]
      simp
    · simp [hfst]
    · simp only at hsnd
      rw [List.map_cons, hsnd, List.length_cons, List.range'_succ, List.map_cons,
        ← List.map_add_range' 1 1 rest.length 1, List.map_map]
      congr 1
      apply List.map_congr_left
      intro j _
      simp only [Function.comp]
      congr 1
      omega

theorem resolveAll_selected (env : Env) (hosts : List String) (c : resolver.Client) (w : World) :
    selectedSince (c.resolveAll env w hosts).2 w.calls.length =
      (List.range' 1 hosts.length).map
        (fun j => pick c.resolvers ((c.currentIndex + j) % 4294967296)) := by
  obtain ⟨log, hlog, _, hsnd⟩ := resolveAll_calls env hosts c w
  unfold selectedSince
  rw [hlog, List.drop_left, hsnd]

theorem selected_window (env : Env) (hosts : List String) (c : resolver.Client) (w : World)
    (a k : Nat) (hak : a + k ≤ hosts.length) :
    ((selectedSince (c.resolveAll env w hosts).2 w.calls.length).drop a).take k =
      (List.range' (1 + a) k).map
        (fun j => pick c.resolvers ((c.currentIndex + j) % 4294967296)) := by
  rw [resolveAll_selected]
  have hsplit : List.range' 1 hosts.length =
      List.range' 1 a ++ (List.range' (1 + a) k ++ List.range' (1 + a + k) (hosts.length - a - k)) := by
    rw [List.range'_append_1, List.range'_append_1]
    congr 1
    omega
  rw [hsplit, List.map_append, List.map_append,
    List.drop_left' (by simp), List.take_left' (by simp)]

theorem pick_of_small (pool : List String) (index : Nat)
    (hk : 1 ≤ pool.length) (hlen : pool.length < 4294967296) :
    pick pool index = pool[index % pool.length]? := by
  unfold pick
  rw [Nat.mod_eq_of_lt hlen, if_neg (by omega)]

theorem map_pick_range_eq_rotate (pool : List String) (s : Nat) (hk : 1 ≤ pool.length) :
    (List.range' s pool.length).map (fun j => pool[j % pool.length]?) =
      (pool.rotate s).map some := by
  apply List.ext_getElem?
  intro i
  by_cases hi : i < pool.length
  · have hmod : (s + i) % pool.length < pool.length := Nat.mod_lt _ (by omega)
    rw [List.getElem?_map, List.getElem?_map, List.getElem?_range' _ _ hi,
      List.getElem?_rotate hi]
    simp only [Option.map_some', Nat.one_mul, Nat.add_comm i s,
      List.getElem?_eq_getElem hmod]
  · rw [List.getElem?_eq_none (by simp; omega), List.getElem?_eq_none (by simp; omega)]

/-! ## Facts about the cache -/

theorem Lookup_miss_eq (env : Env) (c : cache.Cache) (w : World) (h : String)
    (hlit : env.parseIP h = false) (hmiss : (c.cache.Get w.now h).1 = none) :
    c.Lookup env w h =
      match c.dnsClient.Resolve env w h with
      | (Go.panic msg, dns, w1) => (Go.panic msg, { c with dnsClient := dns }, w1)
      | (Go.ret _ (some err), dns, w1) => (Go.ret [] (some err), { c with dnsClient := dns }, w1)
      | (Go.ret results none, dns, w1) =>
        (Go.ret results.IPs none,
          { c with dnsClient := dns,
                   cache := c.cache.AddWithTTL w1.now h results.IPs
                     (seconds (if results.TTL = 0 then c.defaultExpirationTime else results.TTL)) },
          w1) := by
  have hget : c.cache.Get w.now h = (none, c.cache) :=
    Prod.ext hmiss (Get_miss_unchanged _ _ _ hmiss)
  unfold cache.Cache.Lookup
  rw [hget]
  simp only [hlit, Bool.false_eq_true, if_false]

theorem Lookup_miss_calls (env : Env) (c : cache.Cache) (w : World) (h : String)
    (hlit : env.parseIP h = false) (hmiss : (c.cache.Get w.now h).1 = none) :
    ∃ ns, (c.Lookup env w h).2.2.calls = w.calls ++ [(h, ns)] := by
  obtain ⟨ns, hns⟩ := Resolve_calls env c.dnsClient w h
  refine ⟨ns, ?_⟩
  rw [Lookup_miss_eq env c w h hlit hmiss]
  rcases hR : c.dnsClient.Resolve env w h with ⟨r, dns, w1⟩
  rw [hR] at hns
  cases r with
  | panic msg => exact hns
  | ret val err =>
    cases err with
    | none => exact hns
    | some e => exact hns

/-! ## The claims -/

/-- C1: for every string that parses as a literal IP address, `Lookup` returns
exactly the one-element list holding that string, with no error, and leaves the
cache, the client and the world as they were (no `Resolve` invocation, no
exchange, no change to the store); the answer is the same whatever the store
holds, so the store is not read either. -/
theorem Lookup_literal_ip (env : Env) (c : cache.Cache) (w : World) (s : String)
    (hs : env.parseIP s = true) :
    c.Lookup env w s = (Go.ret [s] none, c, w) ∧
    ∀ lru : expirablelru.Cache, ({ c with cache := lru }.Lookup env w s).1 = Go.ret [s] none := by
  constructor
  · unfold cache.Cache.Lookup
    simp [hs]
  · intro lru
    unfold cache.Cache.Lookup
    simp [hs]

theorem Lookup_literal_ip_witness :
    okEnv.parseIP "192.0.2.7" = true ∧
    ((cacheOf cache.DefaultOptions).Lookup okEnv sampleWorld "192.0.2.7" =
        (Go.ret ["192.0.2.7"] none, cacheOf cache.DefaultOptions, sampleWorld) ∧
      ∀ lru : expirablelru.Cache,
        ({ cacheOf cache.DefaultOptions with cache := lru }.Lookup okEnv sampleWorld "192.0.2.7").1 =
          Go.ret ["192.0.2.7"] none) :=
  ⟨by decide, Lookup_literal_ip okEnv (cacheOf cache.DefaultOptions) sampleWorld "192.0.2.7"
    (by decide)⟩

/-- C4: on a cache miss for a non-literal hostname, when the query client
returns an error, `Lookup` returns that same error, the store is left exactly
as it was, and a further `Lookup` of the hostname at any later time invokes the
query client again. -/
theorem Lookup_failure_not_cached (env : Env) (c : cache.Cache) (w : World) (h : String)
    (r : resolver.Result) (e : String) (d : Nat)
    (hlit : env.parseIP h = false)
    (hmiss : (c.cache.Get w.now h).1 = none)
    (hfail : (c.dnsClient.Resolve env w h).1 = Go.ret r (some e)) :
    (c.Lookup env w h).1 = Go.ret [] (some e) ∧
    (c.Lookup env w h).2.1.cache = c.cache ∧
    ∃ ns, ((c.Lookup env w h).2.1.Lookup env ((c.Lookup env w h).2.2.after d) h).2.2.calls =
      (c.Lookup env w h).2.2.calls ++ [(h, ns)] := by
  have hnow := Resolve_now env c.dnsClient w h
  have heq := Lookup_miss_eq env c w h hlit hmiss
  rcases hR : c.dnsClient.Resolve env w h with ⟨r1, dns, w1⟩
  rw [hR] at heq hfail hnow
  simp only at hfail hnow
  subst hfail
  simp only at heq
  rw [heq]
  refine ⟨rfl, rfl, ?_⟩
  have hmiss2 : (c.cache.Get (w1.after d).now h).1 = none := by
    apply Get_miss_later c.cache w.now _ h _ hmiss
    simp only [World.after]
    omega
  exact Lookup_miss_calls env { c with dnsClient := dns } (w1.after d) h hlit hmiss2

theorem Lookup_failure_not_cached_witness :
    failEnv.parseIP "example.com" = false ∧
    (((cacheOf cache.DefaultOptions).cache.Get sampleWorld.now "example.com").1 = none) ∧
    ((cacheOf cache.DefaultOptions).dnsClient.Resolve failEnv sampleWorld "example.com").1 =
      Go.ret { IPs := [], TTL := 0 } (some "i/o timeout #4") ∧
    (((cacheOf cache.DefaultOptions).Lookup failEnv sampleWorld "example.com").1 =
        Go.ret [] (some "i/o timeout #4") ∧
      ((cacheOf cache.DefaultOptions).Lookup failEnv sampleWorld "example.com").2.1.cache =
        (cacheOf cache.DefaultOptions).cache ∧
      ∃ ns, (((cacheOf cache.DefaultOptions).Lookup failEnv sampleWorld "example.com").2.1.Lookup
          failEnv (((cacheOf cache.DefaultOptions).Lookup failEnv sampleWorld "example.com").2.2.after 9)
          "example.com").2.2.calls =
        ((cacheOf cache.DefaultOptions).Lookup failEnv sampleWorld "example.com").2.2.calls ++
          [("example.com", ns)]) :=
  ⟨by decide, by decide, by decide,
    Lookup_failure_not_cached failEnv (cacheOf cache.DefaultOptions) sampleWorld "example.com"
      { IPs := [], TTL := 0 } "i/o timeout #4" 9 (by decide) (by decide) (by decide)⟩

theorem Lookup_hit_eq (env : Env) (c : cache.Cache) (w : World) (h : String) (v : List String)
    (hlit : env.parseIP h = false) (hhit : (c.cache.Get w.now h).1 = some v) :
    c.Lookup env w h = (Go.ret v none, { c with cache := (c.cache.Get w.now h).2 }, w) := by
  have hget : c.cache.Get w.now h = (some v, (c.cache.Get w.now h).2) := Prod.ext hhit rfl
  unfold cache.Cache.Lookup
  rw [hget]
  simp only [hlit, Bool.false_eq_true, if_false]

theorem Lookup_miss_success (env : Env) (c : cache.Cache) (w : World) (h : String)
    (res : resolver.Result)
    (hlit : env.parseIP h = false) (hmiss : (c.cache.Get w.now h).1 = none)
    (hres : (c.dnsClient.Resolve env w h).1 = Go.ret res none) :
    c.Lookup env w h =
      (Go.ret res.IPs none,
        { c with dnsClient := (c.dnsClient.Resolve env w h).2.1,
                 cache := c.cache.AddWithTTL (c.dnsClient.Resolve env w h).2.2.now h res.IPs
                   (seconds (if res.TTL = 0 then c.defaultExpirationTime else res.TTL)) },
        (c.dnsClient.Resolve env w h).2.2) := by
  rw [Lookup_miss_eq env c w h hlit hmiss]
  rcases hR : c.dnsClient.Resolve env w h with ⟨r1, dns, w1⟩
  rw [hR] at hres
  simp only at hres
  subst hres
  rfl

/-- After a miss that resolved, the entry is found until its expiration and
not after it; a later miss invokes the query client. -/
theorem lookupAgain_after_store (env : Env) (c : cache.Cache) (w : World) (h : String)
    (res : resolver.Result) (d : Nat)
    (hlit : env.parseIP h = false) (hmiss : (c.cache.Get w.now h).1 = none)
    (hres : (c.dnsClient.Resolve env w h).1 = Go.ret res none) :
    ((d : Int) ≤ seconds (if res.TTL = 0 then c.defaultExpirationTime else res.TTL) →
      (lookupAgain env c w h d).1 = Go.ret res.IPs none ∧
      (lookupAgain env c w h d).2.1.dnsClient = (c.Lookup env w h).2.1.dnsClient ∧
      (lookupAgain env c w h d).2.2 = (c.Lookup env w h).2.2.after d) ∧
    (seconds (if res.TTL = 0 then c.defaultExpirationTime else res.TTL) < (d : Int) →
      ∃ ns, (lookupAgain env c w h d).2.2.calls = (c.Lookup env w h).2.2.calls ++ [(h, ns)]) := by
  have hL := Lookup_miss_success env c w h res hlit hmiss hres
  unfold lookupAgain
  rw [hL]
  simp only
  generalize (c.dnsClient.Resolve env w h).2.2 = w1
  generalize (c.dnsClient.Resolve env w h).2.1 = dns
  generalize seconds (if res.TTL = 0 then c.defaultExpirationTime else res.TTL) = ttl
  have hhead := find_AddWithTTL c.cache w1.now h res.IPs ttl
  have hget := Get_of_head (c.cache.AddWithTTL w1.now h res.IPs ttl) (w1.after d).now _ hhead
  simp only at hget
  constructor
  · intro hd
    have hnot : ¬ ((w1.after d).now > w1.now + ttl) := by
      simp only [World.after]
      omega
    rw [if_neg hnot] at hget
    rw [Lookup_hit_eq env _ (w1.after d) h res.IPs hlit hget]
    exact ⟨rfl, rfl, rfl⟩
  · intro hd
    have hexp : (w1.after d).now > w1.now + ttl := by
      simp only [World.after]
      omega
    rw [if_pos hexp] at hget
    exact Lookup_miss_calls env _ (w1.after d) h hlit hget

/-- C2: for a non-literal hostname whose first `Lookup` is a miss that resolves
with TTL `t > 0`, the `Lookup` returns the resolved list; a second `Lookup`
made less than `t` seconds after it returns the same list with no error and
without invoking the query client (client and world are as the first call left
them); a second `Lookup` made more than `t` seconds after it invokes the query
client again. -/
theorem Lookup_ttl_window (env : Env) (c : cache.Cache) (w : World) (h : String)
    (ips : List String) (t : Int) (d : Nat)
    (hlit : env.parseIP h = false)
    (hmiss : (c.cache.Get w.now h).1 = none)
    (hres : (c.dnsClient.Resolve env w h).1 = Go.ret { IPs := ips, TTL := t } none)
    (ht : 0 < t) :
    (c.Lookup env w h).1 = Go.ret ips none ∧
    ((d : Int) < t * 1000000000 →
      (lookupAgain env c w h d).1 = Go.ret ips none ∧
      (lookupAgain env c w h d).2.1.dnsClient = (c.Lookup env w h).2.1.dnsClient ∧
      (lookupAgain env c w h d).2.2 = (c.Lookup env w h).2.2.after d) ∧
    (t * 1000000000 < (d : Int) →
      ∃ ns, (lookupAgain env c w h d).2.2.calls = (c.Lookup env w h).2.2.calls ++ [(h, ns)]) := by
  have hrange := Resolve_TTL_range env c.dnsClient w h _ hres
  simp only at hrange
  have hsec : seconds (if t = 0 then c.defaultExpirationTime else t) = t * 1000000000 := by
    rw [if_neg (by omega)]
    exact seconds_of_range t (by omega) (by omega)
  have key := lookupAgain_after_store env c w h _ d hlit hmiss hres
  simp only [hsec] at key
  refine ⟨?_, ?_, key.2⟩
  · rw [Lookup_miss_success env c w h _ hlit hmiss hres]
  · intro hd
    exact key.1 (le_of_lt hd)

theorem Lookup_ttl_window_witness :
    okEnv.parseIP "example.com" = false ∧
    (sampleCache.cache.Get sampleWorld.now "example.com").1 = none ∧
    (sampleCache.dnsClient.Resolve okEnv sampleWorld "example.com").1 =
      Go.ret { IPs := ["93.184.216.34", "93.184.216.35"], TTL := 120 } none ∧
    (0 : Int) < 120 ∧
    ((lookupAgain okEnv sampleCache sampleWorld "example.com" 119999999999).1 =
        Go.ret ["93.184.216.34", "93.184.216.35"] none ∧
      (lookupAgain okEnv sampleCache sampleWorld "example.com" 119999999999).2.1.dnsClient =
        (sampleCache.Lookup okEnv sampleWorld "example.com").2.1.dnsClient ∧
      (lookupAgain okEnv sampleCache sampleWorld "example.com" 119999999999).2.2 =
        (sampleCache.Lookup okEnv sampleWorld "example.com").2.2.after 119999999999) ∧
    (∃ ns, (lookupAgain okEnv sampleCache sampleWorld "example.com" 120000000001).2.2.calls =
      (sampleCache.Lookup okEnv sampleWorld "example.com").2.2.calls ++ [("example.com", ns)]) :=
  ⟨by decide, by decide, by decide, by decide,
    (Lookup_ttl_window okEnv sampleCache sampleWorld "example.com"
      ["93.184.216.34", "93.184.216.35"] 120 119999999999 (by decide) (by decide) (by decide)
      (by decide)).2.1 (by decide),
    (Lookup_ttl_window okEnv sampleCache sampleWorld "example.com"
      ["93.184.216.34", "93.184.216.35"] 120 120000000001 (by decide) (by decide) (by decide)
      (by decide)).2.2 (by decide)⟩

/-- C3, counterexample: with a configured default expiration of 0 seconds, an
answer of TTL 0 is stored with the very instant of the store as its expiration,
and a `Lookup` one nanosecond later already misses and queries again; with a
default of 9223372037 seconds the multiplication by `time.Second` wraps, and
the stored expiration is not the store time plus the default but lies in the
past. -/
theorem Lookup_zero_default_expires_at_once :
    ((cacheOf { cache.DefaultOptions with ExpirationTime := 0 }).Lookup zeroTTLEnv sampleWorld
        "example.com").2.1.cache.items =
      [{ key := "example.com", value := ["93.184.216.34"], expiresAt := 1007 }] ∧
    ((cacheOf { cache.DefaultOptions with ExpirationTime := 0 }).Lookup zeroTTLEnv sampleWorld
        "example.com").2.2.now = 1007 ∧
    (lookupAgain zeroTTLEnv (cacheOf { cache.DefaultOptions with ExpirationTime := 0 })
        sampleWorld "example.com" 1).2.2.calls =
      [("example.com", some "1.0.0.1:53"), ("example.com", some "8.8.8.8:53")] ∧
    ((cacheOf { cache.DefaultOptions with ExpirationTime := 9223372037 }).Lookup zeroTTLEnv
        sampleWorld "example.com").2.1.cache.items =
      [{ key := "example.com", value := ["93.184.216.34"],
         expiresAt := 1007 - 9223372036709551616 }] ∧
    (lookupAgain zeroTTLEnv (cacheOf { cache.DefaultOptions with ExpirationTime := 9223372037 })
        sampleWorld "example.com" 1).2.2.calls =
      [("example.com", some "1.0.0.1:53"), ("example.com", some "8.8.8.8:53")] := by
  decide

/-- C3, amended: on every miss whose resolution succeeds, the entry is stored
under the hostname, as the most recent entry, with the resolved list and with
expiration `time.Duration(ttl) * time.Second` after the store, `ttl` being
`result.TTL` when that is non-zero and the configured default when it is 0;
that is `result.TTL` seconds in the first case and, provided the default lies
within ±9223372036 so that the product does not wrap, the default in seconds in
the second. In the TTL-0 case with a default `0 < default ≤ 9223372036`, a
`Lookup` less than `default` seconds after the store is still a hit returning
the stored list, and a `Lookup` more than `default` seconds after it queries
again. -/
theorem Lookup_miss_stores (env : Env) (c : cache.Cache) (w : World) (h : String)
    (res : resolver.Result) (d : Nat)
    (hlit : env.parseIP h = false)
    (hmiss : (c.cache.Get w.now h).1 = none)
    (hres : (c.dnsClient.Resolve env w h).1 = Go.ret res none) :
    (c.Lookup env w h).2.1.cache.items.head? =
      some { key := h, value := res.IPs,
             expiresAt := (c.Lookup env w h).2.2.now +
               seconds (if res.TTL = 0 then c.defaultExpirationTime else res.TTL) } ∧
    (res.TTL ≠ 0 →
      (c.Lookup env w h).2.1.cache.items.head? =
        some { key := h, value := res.IPs,
               expiresAt := (c.Lookup env w h).2.2.now + res.TTL * 1000000000 }) ∧
    (res.TTL = 0 → -9223372036 ≤ c.defaultExpirationTime →
      c.defaultExpirationTime ≤ 9223372036 →
      (c.Lookup env w h).2.1.cache.items.head? =
        some { key := h, value := res.IPs,
               expiresAt := (c.Lookup env w h).2.2.now +
                 c.defaultExpirationTime * 1000000000 }) ∧
    (res.TTL = 0 → 0 < c.defaultExpirationTime → c.defaultExpirationTime ≤ 9223372036 →
      ((d : Int) < c.defaultExpirationTime * 1000000000 →
        (lookupAgain env c w h d).1 = Go.ret res.IPs none ∧
        (lookupAgain env c w h d).2.2 = (c.Lookup env w h).2.2.after d) ∧
      (c.defaultExpirationTime * 1000000000 < (d : Int) →
        ∃ ns, (lookupAgain env c w h d).2.2.calls =
          (c.Lookup env w h).2.2.calls ++ [(h, ns)])) := by
  have hrange := Resolve_TTL_range env c.dnsClient w h _ hres
  have hL := Lookup_miss_success env c w h res hlit hmiss hres
  have hhead : (c.Lookup env w h).2.1.cache.items.head? =
      some { key := h, value := res.IPs,
             expiresAt := (c.Lookup env w h).2.2.now +
               seconds (if res.TTL = 0 then c.defaultExpirationTime else res.TTL) } := by
    rw [hL]
    exact find_AddWithTTL _ _ _ _ _
  refine ⟨hhead, ?_, ?_, ?_⟩
  · intro hne
    rw [hhead, if_neg hne, seconds_of_range res.TTL (by omega) (by omega)]
  · intro hz hlo hhi
    rw [hhead, if_pos hz, seconds_of_range _ hlo hhi]
  · intro hz hpos hhi
    have key := lookupAgain_after_store env c w h res d hlit hmiss hres
    rw [if_pos hz, seconds_of_range _ (by omega) hhi] at key
    exact ⟨fun hd => ⟨(key.1 (le_of_lt hd)).1, (key.1 (le_of_lt hd)).2.2⟩, key.2⟩

theorem Lookup_miss_stores_witness :
    zeroTTLEnv.parseIP "example.com" = false ∧
    (sampleCache.cache.Get sampleWorld.now "example.com").1 = none ∧
    (sampleCache.dnsClient.Resolve zeroTTLEnv sampleWorld "example.com").1 =
      Go.ret { IPs := ["93.184.216.34"], TTL := 0 } none ∧
    sampleCache.defaultExpirationTime = 300 ∧
    (sampleCache.Lookup zeroTTLEnv sampleWorld "example.com").2.1.cache.items.head? =
      some { key := "example.com", value := ["93.184.216.34"],
             expiresAt := (sampleCache.Lookup zeroTTLEnv sampleWorld "example.com").2.2.now +
               300 * 1000000000 } ∧
    ((lookupAgain zeroTTLEnv sampleCache sampleWorld "example.com" 299999999999).1 =
        Go.ret ["93.184.216.34"] none ∧
      (lookupAgain zeroTTLEnv sampleCache sampleWorld "example.com" 299999999999).2.2 =
        (sampleCache.Lookup zeroTTLEnv sampleWorld "example.com").2.2.after 299999999999) ∧
    (∃ ns, (lookupAgain zeroTTLEnv sampleCache sampleWorld "example.com" 300000000001).2.2.calls =
      (sampleCache.Lookup zeroTTLEnv sampleWorld "example.com").2.2.calls ++
        [("example.com", ns)]) :=
  ⟨by decide, by decide, by decide, rfl,
    (Lookup_miss_stores zeroTTLEnv sampleCache sampleWorld "example.com"
      { IPs := ["93.184.216.34"], TTL := 0 } 0 (by decide) (by decide) (by decide)).2.2.1
      rfl (by decide) (by decide),
    ((Lookup_miss_stores zeroTTLEnv sampleCache sampleWorld "example.com"
      { IPs := ["93.184.216.34"], TTL := 0 } 299999999999 (by decide) (by decide)
      (by decide)).2.2.2 rfl (by decide) (by decide)).1 (by decide),
    ((Lookup_miss_stores zeroTTLEnv sampleCache sampleWorld "example.com"
      { IPs := ["93.184.216.34"], TTL := 0 } 300000000001 (by decide) (by decide)
      (by decide)).2.2.2 rfl (by decide) (by decide)).2 (by decide)⟩

/-- C10, counterexample: for a hostname that is a literal IP address, the
`Lookup` issued after `LookupWithoutCache` on an empty cache invokes no
`Resolve` and sends no exchange. -/
theorem lookupAfterUncached_literal_no_query :
    okEnv.parseIP "192.0.2.7" = true ∧
    sampleCache.cache.items = [] ∧
    (lookupAfterUncached okEnv sampleCache sampleWorld "192.0.2.7" 5).1 =
      Go.ret ["192.0.2.7"] none ∧
    (lookupAfterUncached okEnv sampleCache sampleWorld "192.0.2.7" 5).2.2.calls = [] ∧
    (lookupAfterUncached okEnv sampleCache sampleWorld "192.0.2.7" 5).2.2.exchanges = [] := by
  decide

/-- C10, amended: for every hostname and every cache state,
`LookupWithoutCache` leaves the store and the default expiration of the cache
exactly as they were, whatever the resolution does; and for a hostname that is
not a literal IP address, a `Lookup` issued any time after it on a previously
empty cache invokes the query client. -/
theorem LookupWithoutCache_frame (env : Env) (c : cache.Cache) (w : World) (h : String) :
    (c.LookupWithoutCache env w h).2.1.cache = c.cache ∧
    (c.LookupWithoutCache env w h).2.1.defaultExpirationTime = c.defaultExpirationTime ∧
    (env.parseIP h = false → c.cache.items = [] → ∀ d : Nat,
      ∃ ns, (lookupAfterUncached env c w h d).2.2.calls =
        (c.LookupWithoutCache env w h).2.2.calls ++ [(h, ns)]) := by
  have hframe : (c.LookupWithoutCache env w h).2.1.cache = c.cache ∧
      (c.LookupWithoutCache env w h).2.1.defaultExpirationTime = c.defaultExpirationTime := by
    unfold cache.Cache.LookupWithoutCache
    split
    · exact ⟨rfl, rfl⟩
    · split <;> exact ⟨rfl, rfl⟩
  refine ⟨hframe.1, hframe.2, ?_⟩
  intro hlit hempty d
  unfold lookupAfterUncached
  apply Lookup_miss_calls env _ _ h hlit
  rw [hframe.1]
  unfold expirablelru.Cache.Get
  rw [hempty]
  rfl

theorem LookupWithoutCache_frame_witness :
    okEnv.parseIP "example.com" = false ∧
    sampleCache.cache.items = [] ∧
    ∃ ns, (lookupAfterUncached okEnv sampleCache sampleWorld "example.com" 5).2.2.calls =
      (sampleCache.LookupWithoutCache okEnv sampleWorld "example.com").2.2.calls ++
        [("example.com", ns)] :=
  ⟨by decide, by decide,
    (LookupWithoutCache_frame okEnv sampleCache sampleWorld "example.com").2.2 (by decide)
      (by decide) 5⟩

/-- C5, counterexample: with `maxRetries = 0` a `Resolve` over a transport that
always fails sends no exchange and returns an empty result with a nil error;
and a pool of 4294967296 entries is not empty, yet its length converts to the
`uint32` 0 and `Resolve` panics on the division before any exchange. -/
theorem Resolve_zero_retries_no_error :
    (noRetryClient.Resolve failEnv sampleWorld "example.com").1 =
      Go.ret { IPs := [], TTL := 0 } none ∧
    (noRetryClient.Resolve failEnv sampleWorld "example.com").2.2.exchanges = [] ∧
    hugePoolClient.resolvers.length = 4294967296 ∧
    (hugePoolClient.Resolve failEnv sampleWorld "example.com").1 =
      Go.panic "integer divide by zero" :=
  ⟨by decide, by decide, hugePoolClient_length,
    (Resolve_panic_of_len32_zero failEnv hugePoolClient sampleWorld "example.com"
      (by rw [hugePoolClient_length])).1⟩

/-- C5, amended: for every retry bound `r ≥ 1` and every pool whose length is
not a multiple of 4294967296 (so every non-empty pool of fewer entries than
that), a `Resolve` call over a transport that fails on every exchange sends
exactly `r` exchanges, all for the queried name and to one nameserver of the
pool, and then returns an error with an empty result, that error being the one
of the last of these exchanges. -/
theorem Resolve_retry_bound (env : Env) (c : resolver.Client) (w : World) (host : String)
    (hpool : c.resolvers.length % 4294967296 ≠ 0)
    (hr : 1 ≤ c.maxRetries)
    (hfail : ∀ (n : Nat) (name ns : String), (env.Exchange n name ns).err ≠ none) :
    ∃ ns e, ns ∈ c.resolvers ∧
      (c.Resolve env w host).2.2.exchanges =
        w.exchanges ++ List.replicate c.maxRetries.toNat (env.Fqdn host, ns) ∧
      (env.Exchange (w.exchanges.length + (c.maxRetries.toNat - 1)) (env.Fqdn host) ns).err =
        some e ∧
      (c.Resolve env w host).1 = Go.ret { IPs := [], TTL := 0 } (some e) := by
  obtain ⟨ns, hmem, hsel, _⟩ := roundRobin_ok c hpool
  obtain ⟨e, he⟩ := Option.ne_none_iff_exists'.mp
    (hfail (w.exchanges.length + (c.maxRetries.toNat - 1)) (env.Fqdn host) ns)
  obtain ⟨h1, h2⟩ := Resolve_of_selected env c w host ns hsel
  obtain ⟨w1, hw1, hloop⟩ := exchangeLoop_skip env (env.Fqdn host) ns c.maxRetries.toNat 0 none
    { w with calls := w.calls ++ [(host, some ns)] } (fun j _ => hfail _ _ _)
  rw [Nat.zero_add] at hloop
  have hne : c.maxRetries.toNat ≠ 0 := by omega
  rw [if_neg hne] at hloop
  refine ⟨ns, e, hmem, ?_, he, ?_⟩
  · rw [h2, hloop]
    exact hw1
  · rw [h1, hloop]
    show Go.ret _ _ = _
    rw [← he]

theorem Resolve_retry_bound_witness :
    sampleClient.resolvers.length % 4294967296 ≠ 0 ∧
    1 ≤ sampleClient.maxRetries ∧
    (∀ (n : Nat) (name ns : String), (failEnv.Exchange n name ns).err ≠ none) ∧
    ∃ ns e, ns ∈ sampleClient.resolvers ∧
      (sampleClient.Resolve failEnv sampleWorld "example.com").2.2.exchanges =
        sampleWorld.exchanges ++
          List.replicate sampleClient.maxRetries.toNat (failEnv.Fqdn "example.com", ns) ∧
      (failEnv.Exchange (sampleWorld.exchanges.length + (sampleClient.maxRetries.toNat - 1))
        (failEnv.Fqdn "example.com") ns).err = some e ∧
      (sampleClient.Resolve failEnv sampleWorld "example.com").1 =
        Go.ret { IPs := [], TTL := 0 } (some e) :=
  ⟨by decide, by decide, fun _ _ _ => by simp [failEnv, sampleEnv],
    Resolve_retry_bound failEnv sampleClient sampleWorld "example.com" (by decide) (by decide)
      (fun _ _ _ => by simp [failEnv, sampleEnv])⟩

/-- C6: in a `Resolve` call whose exchange number `i` (the earlier ones having
failed in transport) returns, without error, a response whose status code is
not success, `Resolve` returns at once an error whose text is the name of that
status in `dns.RcodeToString`, with an empty result, and the call has sent
exactly `i + 1` exchanges; for `i = 0` that is exactly one exchange, whatever
`maxRetries ≥ 1` is. -/
theorem Resolve_rcode_short_circuit (env : Env) (c : resolver.Client) (w : World)
    (host ns : String) (i : Nat) (answer : Msg)
    (hsel : c.roundRobin.2 = Except.ok ns)
    (hi : (i : Int) < c.maxRetries)
    (hprev : ∀ j < i, (env.Exchange (w.exchanges.length + j) (env.Fqdn host) ns).err ≠ none)
    (herr : (env.Exchange (w.exchanges.length + i) (env.Fqdn host) ns).err = none)
    (hans : (env.Exchange (w.exchanges.length + i) (env.Fqdn host) ns).answer = some answer)
    (hrc : answer.Rcode ≠ RcodeSuccess) :
    (c.Resolve env w host).1 =
        Go.ret { IPs := [], TTL := 0 } (some (env.RcodeToString answer.Rcode)) ∧
      (c.Resolve env w host).2.2.exchanges =
        w.exchanges ++ List.replicate (i + 1) (env.Fqdn host, ns) := by
  have key := Resolve_answered env c w host ns i answer hsel hi hprev herr hans
  rw [if_pos hrc] at key
  exact key

theorem Resolve_rcode_short_circuit_witness :
    sampleClient.roundRobin.2 = Except.ok "1.0.0.1:53" ∧
    ((1 : Nat) : Int) < sampleClient.maxRetries ∧
    (∀ j < 1, (nxdomainEnv.Exchange (sampleWorld.exchanges.length + j)
      (nxdomainEnv.Fqdn "example.com") "1.0.0.1:53").err ≠ none) ∧
    nxdomainAnswer.Rcode ≠ RcodeSuccess ∧
    (sampleClient.Resolve nxdomainEnv sampleWorld "example.com").1 =
      Go.ret { IPs := [], TTL := 0 } (some "NXDOMAIN") ∧
    (sampleClient.Resolve nxdomainEnv sampleWorld "example.com").2.2.exchanges =
      [("example.com.", "1.0.0.1:53"), ("example.com.", "1.0.0.1:53")] :=
  ⟨rfl, by decide, by decide, by decide,
    Resolve_rcode_short_circuit nxdomainEnv sampleClient sampleWorld "example.com" "1.0.0.1:53"
      1 nxdomainAnswer rfl (by decide) (by decide) rfl rfl (by decide)⟩

/-- C9: in a `Resolve` call whose exchange number `i` (the earlier ones having
failed in transport) returns, without error, a response with the success
status, `Resolve` returns with a nil error, and without a further exchange, the
result whose `IPs` are the addresses of the address records of the answer, in
answer order and one per such record, records of other types being ignored,
and whose `TTL` is that of the last address record; with no address record the
result is the empty list and TTL 0. -/
theorem Resolve_success_result (env : Env) (c : resolver.Client) (w : World)
    (host ns : String) (i : Nat) (answer : Msg)
    (hsel : c.roundRobin.2 = Except.ok ns)
    (hi : (i : Int) < c.maxRetries)
    (hprev : ∀ j < i, (env.Exchange (w.exchanges.length + j) (env.Fqdn host) ns).err ≠ none)
    (herr : (env.Exchange (w.exchanges.length + i) (env.Fqdn host) ns).err = none)
    (hans : (env.Exchange (w.exchanges.length + i) (env.Fqdn host) ns).answer = some answer)
    (hrc : answer.Rcode = RcodeSuccess) :
    (c.Resolve env w host).1 =
        Go.ret { IPs := (addressRecords answer.Answer).map Prod.snd,
                 TTL := lastAddressTTL answer.Answer } none ∧
      ((addressRecords answer.Answer).map Prod.snd).length =
        (answer.Answer.filter (fun record =>
          match record with
          | RR.A _ _ => true
          | RR.other _ _ => false)).length ∧
      (addressRecords answer.Answer = [] →
        (c.Resolve env w host).1 = Go.ret { IPs := [], TTL := 0 } none) ∧
      (c.Resolve env w host).2.2.exchanges =
        w.exchanges ++ List.replicate (i + 1) (env.Fqdn host, ns) := by
  have key := Resolve_answered env c w host ns i answer hsel hi hprev herr hans
  rw [if_neg (not_not.mpr hrc), scanAnswer_eq] at key
  have hres : (c.Resolve env w host).1 =
      Go.ret { IPs := (addressRecords answer.Answer).map Prod.snd,
               TTL := lastAddressTTL answer.Answer } none := by
    rw [key.1]
    simp only [List.nil_append, lastAddressTTL]
  refine ⟨hres, ?_, ?_, key.2⟩
  · rw [List.length_map]
    unfold addressRecords
    generalize answer.Answer = l
    induction l with
    | nil => rfl
    | cons rr rest ih =>
      cases rr with
      | A ttl a => simpa [List.filterMap_cons, List.filter_cons] using ih
      | other t ttl => simpa [List.filterMap_cons, List.filter_cons] using ih
  · intro hnil
    rw [hres]
    simp [lastAddressTTL, hnil]

theorem Resolve_success_result_witness :
    sampleClient.roundRobin.2 = Except.ok "1.0.0.1:53" ∧
    ((2 : Nat) : Int) < sampleClient.maxRetries ∧
    (∀ j < 2, (flakyEnv.Exchange (sampleWorld.exchanges.length + j)
      (flakyEnv.Fqdn "example.com") "1.0.0.1:53").err ≠ none) ∧
    sampleAnswer.Rcode = RcodeSuccess ∧
    (sampleClient.Resolve flakyEnv sampleWorld "example.com").1 =
      Go.ret { IPs := ["93.184.216.34", "93.184.216.35"], TTL := 120 } none ∧
    (sampleClient.Resolve flakyEnv sampleWorld "example.com").2.2.exchanges =
      [("example.com.", "1.0.0.1:53"), ("example.com.", "1.0.0.1:53"),
        ("example.com.", "1.0.0.1:53")] :=
  ⟨rfl, by decide, by decide, by decide,
    (Resolve_success_result flakyEnv sampleClient sampleWorld "example.com" "1.0.0.1:53"
      2 sampleAnswer rfl (by decide) (by decide) rfl rfl (by decide)).1,
    (Resolve_success_result flakyEnv sampleClient sampleWorld "example.com" "1.0.0.1:53"
      2 sampleAnswer rfl (by decide) (by decide) rfl rfl (by decide)).2.2.2⟩

/-- C7, counterexample: on a new client with a pool of three nameservers, the
calls number 4294967294, 4294967295 and 4294967296 form a run of three
consecutive calls that selects the third entry once and the first entry twice,
the cursor wrapping from 4294967295 to 0 in between; and on a pool of
4294967296 entries the selection finds no nameserver at all. -/
theorem roundRobin_wraps_unevenly :
    manyHosts.length = 4294967296 ∧
    ((selectedSince ((resolver.New threePool 5).1.resolveAll okEnv sampleWorld manyHosts).2
        sampleWorld.calls.length).drop 4294967293).take 3 =
      [some "8.8.8.8:53", some "1.1.1.1:53", some "1.1.1.1:53"] ∧
    ¬ List.Perm
      (((selectedSince ((resolver.New threePool 5).1.resolveAll okEnv sampleWorld manyHosts).2
        sampleWorld.calls.length).drop 4294967293).take 3)
      (threePool.map some) ∧
    selectedSince (hugePoolClient.resolveAll okEnv sampleWorld ["example.com"]).2
      sampleWorld.calls.length = [none] := by
  have hlen : manyHosts.length = 4294967296 := List.length_replicate _ _
  have hwin := selected_window okEnv manyHosts (resolver.New threePool 5).1 sampleWorld
    4294967293 3 (by rw [hlen])
  have hval : (List.range' (1 + 4294967293) 3).map
      (fun j => pick (resolver.New threePool 5).1.resolvers
        (((resolver.New threePool 5).1.currentIndex + j) % 4294967296)) =
      [some "8.8.8.8:53", some "1.1.1.1:53", some "1.1.1.1:53"] := by
    decide
  rw [hval] at hwin
  refine ⟨hlen, hwin, ?_, ?_⟩
  · rw [hwin]
    decide
  · rw [resolveAll_selected]
    have hp : ∀ index, pick hugePoolClient.resolvers index = none := by
      intro index
      unfold pick
      rw [hugePoolClient_length]
      rfl
    simp only [List.length_singleton, List.range'_one, List.map_cons, List.map_nil, hp]

/-- C7, amended: for every client whose pool has `1 ≤ k < 4294967296` entries
and every sequence of sequential `Resolve` calls, as many nameservers are
selected as calls are made, the nameserver of a call is `pool[cursor mod k]`
for the incremented 32-bit cursor, and every run of `k` consecutive calls
during which the cursor does not wrap around from 4294967295 to 0 selects each
pool entry exactly once; on a new client these are all the runs among the
first 4294967295 calls. -/
theorem roundRobin_cycles (env : Env) (c : resolver.Client) (w : World) (hosts : List String)
    (hk : 1 ≤ c.resolvers.length) (hlen : c.resolvers.length < 4294967296) :
    (selectedSince (c.resolveAll env w hosts).2 w.calls.length).length = hosts.length ∧
    (∀ j, j < hosts.length →
      (selectedSince (c.resolveAll env w hosts).2 w.calls.length)[j]? =
        some (c.resolvers[(c.currentIndex + (j + 1)) % 4294967296 % c.resolvers.length]?)) ∧
    (∀ a, a + c.resolvers.length ≤ hosts.length →
      (c.currentIndex + a) % 4294967296 + c.resolvers.length < 4294967296 →
      List.Perm
        (((selectedSince (c.resolveAll env w hosts).2 w.calls.length).drop a).take
          c.resolvers.length)
        (c.resolvers.map some)) := by
  refine ⟨?_, ?_, ?_⟩
  · rw [resolveAll_selected]
    simp
  · intro j hj
    rw [resolveAll_selected, List.getElem?_map, List.getElem?_range' _ _ hj]
    simp only [Option.map_some', Nat.one_mul]
    rw [pick_of_small _ _ hk hlen, Nat.add_comm 1 j]
  · intro a ha hwrap
    rw [selected_window env hosts c w a c.resolvers.length ha]
    have hfun : (List.range' (1 + a) c.resolvers.length).map
        (fun j => pick c.resolvers ((c.currentIndex + j) % 4294967296)) =
        (List.range' ((c.currentIndex + a) % 4294967296 + 1) c.resolvers.length).map
          (fun j => c.resolvers[j % c.resolvers.length]?) := by
      rw [List.range'_eq_map_range, List.range'_eq_map_range, List.map_map, List.map_map]
      apply List.map_congr_left
      intro i hi
      have hilt : i < c.resolvers.length := List.mem_range.mp hi
      have hsmall : (c.currentIndex + (1 + a + i)) % 4294967296 =
          (c.currentIndex + a) % 4294967296 + 1 + i := by
        omega
      simp only [Function.comp]
      rw [hsmall, pick_of_small _ _ hk hlen]
    rw [hfun, map_pick_range_eq_rotate _ _ hk]
    exact (List.rotate_perm _ _).map _

theorem roundRobin_cycles_witness :
    1 ≤ sampleClient.resolvers.length ∧
    sampleClient.resolvers.length < 4294967296 ∧
    (sampleClient.currentIndex + 2) % 4294967296 + sampleClient.resolvers.length <
      4294967296 ∧
    (selectedSince (sampleClient.resolveAll flakyEnv sampleWorld ["a.example", "b.example",
      "c.example", "d.example", "e.example", "f.example"]).2 sampleWorld.calls.length)[5]? =
        some (sampleClient.resolvers[(sampleClient.currentIndex + (5 + 1)) % 4294967296 %
          sampleClient.resolvers.length]?) ∧
    List.Perm
      (((selectedSince (sampleClient.resolveAll flakyEnv sampleWorld ["a.example", "b.example",
        "c.example", "d.example", "e.example", "f.example"]).2 sampleWorld.calls.length).drop
          2).take sampleClient.resolvers.length)
      (sampleClient.resolvers.map some) :=
  ⟨by decide, by decide, by decide,
    (roundRobin_cycles flakyEnv sampleClient sampleWorld ["a.example", "b.example",
      "c.example", "d.example", "e.example", "f.example"] (by decide) (by decide)).2.1 5
      (by decide),
    (roundRobin_cycles flakyEnv sampleClient sampleWorld ["a.example", "b.example",
      "c.example", "d.example", "e.example", "f.example"] (by decide) (by decide)).2.2 2
      (by decide) (by decide)⟩

/-- C8: the code at the empty pool, where it departs from the claim.
Both `resolver.New` and `cache.New` accept an empty pool and return a nil
error, so the construction-time error that their callers check for is never
produced; the first `Resolve` call on that client, and the first `Lookup` of a
hostname through that cache, then select no nameserver, send no exchange and
panic on the division by the pool length 0. -/
theorem New_accepts_empty_pool :
    (resolver.New [] 5).2 = none ∧
    (resolver.New [] 5).1.resolvers = [] ∧
    (cache.New { cache.DefaultOptions with BaseResolvers := [] }).2 = none ∧
    (cache.New { cache.DefaultOptions with BaseResolvers := [] }).1 =
      some (cacheOf { cache.DefaultOptions with BaseResolvers := [] }) ∧
    ((resolver.New [] 5).1.Resolve okEnv sampleWorld "example.com").2.2.calls =
      [("example.com", none)] ∧
    ((resolver.New [] 5).1.Resolve okEnv sampleWorld "example.com").2.2.exchanges = [] ∧
    ((resolver.New [] 5).1.Resolve okEnv sampleWorld "example.com").1 =
      Go.panic "integer divide by zero" ∧
    ((cacheOf { cache.DefaultOptions with BaseResolvers := [] }).Lookup okEnv sampleWorld
      "example.com").1 = Go.panic "integer divide by zero" := by
  decide

end resolvercache
